import Mathlib

/-!
Shallow embedding of the tiling / overlap / resumability pipeline in
`dask-new-overlap.py`: axis tuples, Python `range` semantics, the range
containment check, the tile plan builder, the overlap trimmer, the chunk
writer offsets, the resumability filter, the existing-chunk snapshot and
the startup configuration checks, together with theorems about them.
-/

namespace DaskOverlap

/-- Values corresponding to the T, Z, Y, X axes (source line 16). -/
structure TZYX (α : Type) where
  T : α
  Z : α
  Y : α
  X : α
deriving DecidableEq, Repr

/-- Values corresponding to the T, C, Z, Y, X axes (source lines 18-25). -/
structure TCZYX (α : Type) where
  T : α
  C : α
  Z : α
  Y : α
  X : α
deriving DecidableEq, Repr

/-- The `TZYX` projection of a `TCZYX`: same values with the channel axis
dropped (source lines 23-25). -/
def TCZYX.TZYX {α : Type} (v : TCZYX α) : DaskOverlap.TZYX α :=
  ⟨v.T, v.Z, v.Y, v.X⟩

/-- A Python `range(start, stop, step)` value. A valid Python range has
`step ≠ 0` (construction raises otherwise). -/
structure PyRange where
  start : Int
  stop : Int
  step : Int
deriving DecidableEq, Repr

/-- `len(r)` for a Python range: the number of elements. -/
def PyRange.len (r : PyRange) : Nat :=
  if 0 < r.step then
    if r.start < r.stop then ((r.stop - r.start - 1) / r.step).toNat + 1 else 0
  else
    if r.stop < r.start then ((r.start - r.stop - 1) / (-r.step)).toNat + 1 else 0

/-- `x in r` for a Python range and an integer `x`: `x` lies between the
endpoints (half-open on the `stop` side) and is reachable from `start` in
whole steps. -/
def PyRange.mem (r : PyRange) (x : Int) : Bool :=
  if 0 < r.step then
    decide (r.start ≤ x ∧ x < r.stop ∧ (x - r.start) % r.step = 0)
  else if r.step < 0 then
    decide (r.stop < x ∧ x ≤ r.start ∧ (x - r.start) % r.step = 0)
  else
    false

/-- `r[-1]` for a nonempty Python range: its actual last element. -/
def PyRange.last (r : PyRange) : Int :=
  r.start + (r.len - 1 : Nat) * r.step

/-- `range_contains(r_inner, r_outer)` (source lines 28-50): decides whether
`r_inner` is entirely present in `r_outer`. -/
def range_contains (r_inner r_outer : PyRange) : Bool :=
  if r_inner.len = 0 then true
  else if !(r_outer.mem r_inner.start) then false
  else if r_inner.len = 1 then true
  else if !(r_outer.mem r_inner.last) then false
  else if r_inner.len = 2 then true
  else decide (r_inner.step % r_outer.step = 0)

/-- The validation and roi construction of `load_chunk`
(source lines 53-93): the scene bounding rectangle `(x0, y0, w, h)` gives
the valid ranges `X = range(x0, x0 + w)` and `Y = range(y0, y0 + h)`; the
Y and X read windows are checked for containment and a failure raises
"input range lies outside image"; on success the roi
`(x_range.start, y_range.start, len(x_range), len(y_range))` is passed to
the reader verbatim. The `t_range` and `z_range` parameters are only
looped over to read planes; no containment check is applied to them. -/
def load_chunk (t_range z_range y_range x_range : PyRange)
    (x0 y0 : Int) (w h : Nat) : Except String (Int × Int × Nat × Nat) :=
  let X : PyRange := ⟨x0, x0 + w, 1⟩
  let Y : PyRange := ⟨y0, y0 + h, 1⟩
  if !(range_contains y_range Y) || !(range_contains x_range X) then
    Except.error "input range lies outside image"
  else
    Except.ok (x_range.start, y_range.start, x_range.len, y_range.len)

/-- Per-axis ceiling division `math.ceil(f / c)` used by `get_chunk_dims`
(source line 212): how many tiles the axis of extent `E` splits into with
tile size `ts`. -/
def chunk_dims (E ts : Nat) : Nat := (E + ts - 1) / ts

/-- `get_chunk_dims(file_values, chunk_sizes)` (source lines 200-213):
ceiling division of the file's TZYX extents by the tile sizes. -/
def get_chunk_dims (file_values : TCZYX Nat) (chunk_sizes : TZYX Nat) : TZYX Nat :=
  ⟨chunk_dims file_values.T chunk_sizes.T,
   chunk_dims file_values.Z chunk_sizes.Z,
   chunk_dims file_values.Y chunk_sizes.Y,
   chunk_dims file_values.X chunk_sizes.X⟩

/-- Per-axis overlapped read window of the tile with grid index `i`, on an
axis with origin `m`, extent `E`, tile size `ts` and overlap `ov`
(source lines 179-182): the loop variable is `s = m + i*ts` and the window
is `range(max(s - ov, m), min(m + E, s + ts + ov))`, given here as a
half-open `(start, stop)` pair. (In `Nat`, `m + i*ts - ov` followed by
`max _ m` agrees with Python's `max(s - ov, m)` over the integers.) -/
def tile_window (m E ts ov i : Nat) : Nat × Nat :=
  (max (m + i * ts - ov) m, min (m + E) (m + i * ts + ts + ov))

/-- Extent of a tile's read window along one axis: the `len` of the range
read by `load_chunk`, which is the block's shape along that axis
(source line 75). -/
def window_len (m E ts ov i : Nat) : Nat :=
  (tile_window m E ts ov i).2 - (tile_window m E ts ov i).1

/-- Low-side trim offset along one axis (source line 232):
`lo = overlaps[i] if c_i > 0 else 0`. -/
def trim_lo (ov i : Nat) : Nat := if 0 < i then ov else 0

/-- High-side trim along one axis (source line 233):
`hi = -overlaps[i] if overlaps[i] > 0 and c_i < chunk_array[i]-1 else None`;
`some ov` stands for the Python stop `-ov`, `none` for `None`. -/
def trim_hi (ov i dims : Nat) : Option Nat :=
  if 0 < ov ∧ i < dims - 1 then some ov else none

/-- Length of `a[lo:hi]` for a Python axis of length `L` where `hi` is
either `None` or a negative stop `-ov` (`some ov`); Python slicing clamps
out-of-range bounds, which truncated `Nat` subtraction reproduces. -/
def slice_len (L lo : Nat) (hi : Option Nat) : Nat :=
  match hi with
  | none => L - lo
  | some ov => (L - ov) - lo

/-- Extent along one tiled axis of the block produced by `trim`
(source lines 216-237) from the read window of grid index `i`. -/
def trimmed_len (m E ts ov i : Nat) : Nat :=
  slice_len (window_len m E ts ov i) (trim_lo ov i)
    (trim_hi ov i (chunk_dims E ts))

/-- Per-axis output region written by `save_block_to_zarr`
(source line 257): the half-open slice
`[chunk_index*chunk_size, chunk_index*chunk_size + block_extent)` in the
output array's coordinate space. -/
def save_region (m E ts ov i : Nat) : Nat × Nat :=
  (i * ts, i * ts + trimmed_len m E ts ov i)

/-- The slice list built by `trim` (source lines 230-236): one
`slice(lo, hi)` per tiled axis in T, Z, Y, X order, with the untrimmed
channel slice `slice(0, None)` inserted at position 1
(`axes.insert(1, slice(0, None))`). `some ov` stands for the negative stop
`-ov`, `none` for `None`. -/
def trim_slices (ch_index chunk_array overlaps : TZYX Nat) : List (Nat × Option Nat) :=
  [(trim_lo overlaps.T ch_index.T, trim_hi overlaps.T ch_index.T chunk_array.T),
   (0, none),
   (trim_lo overlaps.Z ch_index.Z, trim_hi overlaps.Z ch_index.Z chunk_array.Z),
   (trim_lo overlaps.Y ch_index.Y, trim_hi overlaps.Y ch_index.Y chunk_array.Y),
   (trim_lo overlaps.X ch_index.X, trim_hi overlaps.X ch_index.X chunk_array.X)]

/-- Python `range(a, b)` (step 1, non-negative bounds) as the list of its
elements. -/
def pyRangeNat (a b : Nat) : List Nat := List.range' a (b - a)

/-- `check_existing_chunks(da_chunk, chunk_ratios, existing_chunks)`
(source lines 263-283): for each axis the storage-chunk range
`range(da_ch * ch_r, (da_ch + 1) * ch_r)`; `all` of set membership over
`itertools.product` of the four ranges, written as nested `all`s. -/
def check_existing_chunks (da_chunk : TZYX Nat) (chunk_ratios : TZYX Nat)
    (existing_chunks : Finset (TZYX Nat)) : Bool :=
  (pyRangeNat (da_chunk.T * chunk_ratios.T) ((da_chunk.T + 1) * chunk_ratios.T)).all fun t =>
    (pyRangeNat (da_chunk.Z * chunk_ratios.Z) ((da_chunk.Z + 1) * chunk_ratios.Z)).all fun z =>
      (pyRangeNat (da_chunk.Y * chunk_ratios.Y) ((da_chunk.Y + 1) * chunk_ratios.Y)).all fun y =>
        (pyRangeNat (da_chunk.X * chunk_ratios.X) ((da_chunk.X + 1) * chunk_ratios.X)).all fun x =>
          decide (TZYX.mk t z y x ∈ existing_chunks)

/-- The tile plan built by `load_chunks_from_czi` (source lines 134-197):
the loop `for t in range(0, T, chunk_sizes.T)` runs
`chunk_dims T chunk_sizes.T` times with `t = t_ind * chunk_sizes.T` (and
likewise for Z, and for Y, X with origins `Y_min`, `X_min`); a tile is
skipped when `check_existing_chunks` holds; otherwise its grid index is
recorded with the four overlapped read windows handed to `load_chunk`. -/
def load_chunks_from_czi (T Z Y_min height X_min width : Nat)
    (chunk_sizes overlap : TZYX Nat) (existing_chunks : Finset (TZYX Nat))
    (chunk_ratios : TZYX Nat) :
    List (TZYX Nat × ((Nat × Nat) × (Nat × Nat) × (Nat × Nat) × (Nat × Nat))) :=
  (List.range (chunk_dims T chunk_sizes.T)).flatMap fun t_ind =>
    (List.range (chunk_dims Z chunk_sizes.Z)).flatMap fun z_ind =>
      (List.range (chunk_dims height chunk_sizes.Y)).flatMap fun y_ind =>
        (List.range (chunk_dims width chunk_sizes.X)).filterMap fun x_ind =>
          if check_existing_chunks ⟨t_ind, z_ind, y_ind, x_ind⟩ chunk_ratios existing_chunks then
            none
          else
            some (⟨t_ind, z_ind, y_ind, x_ind⟩,
              (tile_window 0 T chunk_sizes.T overlap.T t_ind,
               tile_window 0 Z chunk_sizes.Z overlap.Z z_ind,
               tile_window Y_min height chunk_sizes.Y overlap.Y y_ind,
               tile_window X_min width chunk_sizes.X overlap.X x_ind))

/-- `k.split('.')` on the key's characters: the dot-separated pieces, in
order (an empty key gives one empty piece, like Python's `split`). -/
def split_on_dot (cs : List Char) : List (List Char) :=
  match cs with
  | [] => [[]]
  | c :: rest =>
    if c = '.' then [] :: split_on_dot rest
    else
      match split_on_dot rest with
      | [] => [[c]]
      | piece :: pieces => (c :: piece) :: pieces

/-- `int(piece)` for a zarr chunk-key piece: a nonempty digit string parsed
as a decimal number (zarr chunk keys are plain unsigned decimals; anything
else would make Python's `int` raise, modelled as `none`). -/
def parse_nat (cs : List Char) : Option Nat :=
  if cs ≠ [] ∧ cs.all (fun c => c.isDigit) then
    some (cs.foldl (fun n c => n * 10 + (c.toNat - '0'.toNat)) 0)
  else
    none

/-- Parsing of one zarr store key as `TCZYX(*map(int, k.split('.')))`
(source line 360): the key must be five dot-separated integers; `none`
models the exception Python would raise on anything else. -/
def parse_chunk_key (k : String) : Option (TCZYX Nat) :=
  match (split_on_dot k.data).mapM parse_nat with
  | some [t, c, z, y, x] => some ⟨t, c, z, y, x⟩
  | _ => none

/-- The existing-chunks snapshot (source lines 358-361): every store key
other than `".zarray"` is parsed as a TCZYX chunk coordinate and its TZYX
projection is collected into a set. -/
def existing_chunks_of_keys (keys : List String) : Finset (TZYX Nat) :=
  (((keys.filter fun k => k != ".zarray").filterMap parse_chunk_key).map
    TCZYX.TZYX).toFinset

/-- One iteration of the startup size check (source lines 348-356): the
output zarr chunk `f_ch` must not exceed the dask chunk `d_ch` and must
divide it evenly. -/
def axis_chunk_check (f_ch d_ch : Nat) : Except String Unit :=
  if f_ch > d_ch then Except.error "Dask chunks smaller than output chunks"
  else if d_ch % f_ch ≠ 0 then Except.error "Dask chunks not multiples of output chunks"
  else Except.ok ()

/-- The startup size check loop
`for f_ch, d_ch in zip(output_zarr_chunks.TZYX, chunk_sizes)`
(source lines 348-356). -/
def check_output_chunks (output_zarr_chunks chunk_sizes : TZYX Nat) :
    Except String Unit := do
  axis_chunk_check output_zarr_chunks.T chunk_sizes.T
  axis_chunk_check output_zarr_chunks.Z chunk_sizes.Z
  axis_chunk_check output_zarr_chunks.Y chunk_sizes.Y
  axis_chunk_check output_zarr_chunks.X chunk_sizes.X

/-- `chunk_ratios` (source line 363): floor quotient of dask chunk sizes by
output zarr chunk sizes per axis. -/
def chunk_ratios (chunk_sizes output_chunks : TZYX Nat) : TZYX Nat :=
  ⟨chunk_sizes.T / output_chunks.T, chunk_sizes.Z / output_chunks.Z,
   chunk_sizes.Y / output_chunks.Y, chunk_sizes.X / output_chunks.X⟩

/-- The driver sequence (source lines 328-367): the output-chunk size check
runs before the tile plan is built, so a failed check aborts the run with
no tile scheduled; on success the existing-chunk snapshot and the chunk
ratios feed the plan builder. -/
def driver_plan (file_array : TCZYX Nat) (Y_min X_min : Nat)
    (chunk_sizes overlaps : TZYX Nat) (output_chunks : TCZYX Nat)
    (store_keys : List String) :
    Except String (List (TZYX Nat × ((Nat × Nat) × (Nat × Nat) × (Nat × Nat) × (Nat × Nat)))) := do
  check_output_chunks output_chunks.TZYX chunk_sizes
  let existing := existing_chunks_of_keys store_keys
  let ratios := chunk_ratios chunk_sizes output_chunks.TZYX
  pure (load_chunks_from_czi file_array.T file_array.Z Y_min file_array.Y
    X_min file_array.X chunk_sizes overlaps existing ratios)

/-- C4: `range_contains(inner, outer)` applies exactly the six rules, in
order: empty inner → true; `inner.start` not in outer → false; one-element
inner → true; inner's last element not in outer → false; two-element inner
→ true; otherwise true iff `inner.step mod outer.step == 0`. It is a pure
function (a Lean `def`), hence has no side effects. -/
theorem range_contains_rule_chain (i o : PyRange) :
    (i.len = 0 → range_contains i o = true)
    ∧ (i.len ≠ 0 → o.mem i.start = false → range_contains i o = false)
    ∧ (i.len = 1 → o.mem i.start = true → range_contains i o = true)
    ∧ (2 ≤ i.len → o.mem i.start = true → o.mem i.last = false →
        range_contains i o = false)
    ∧ (i.len = 2 → o.mem i.start = true → o.mem i.last = true →
        range_contains i o = true)
    ∧ (3 ≤ i.len → o.mem i.start = true → o.mem i.last = true →
        (range_contains i o = true ↔ i.step % o.step = 0)) := by
  refine ⟨?_, ?_, ?_, ?_, ?_, ?_⟩ <;>
    · intros
      simp only [range_contains]
      repeat' split
      all_goals simp_all

/-- Witness for C4: the sixth rule applied at `inner = range(0, 6, 2)`,
`outer = range(0, 10, 1)`. -/
theorem range_contains_rule_chain_witness :
    range_contains ⟨0, 6, 2⟩ ⟨0, 10, 1⟩ = true :=
  ((range_contains_rule_chain ⟨0, 6, 2⟩ ⟨0, 10, 1⟩).2.2.2.2.2
    (by decide) (by decide) (by decide)).mpr (by decide)

theorem chunk_dims_le_mul (E ts : Nat) (hts : 0 < ts) : E ≤ chunk_dims E ts * ts := by
  unfold chunk_dims
  have h : (E + ts - 1) / ts * ts + (E + ts - 1) % ts = E + ts - 1 := by
    rw [Nat.mul_comm]; exact Nat.div_add_mod _ _
  have hr : (E + ts - 1) % ts < ts := Nat.mod_lt _ hts
  generalize hA : (E + ts - 1) / ts * ts = A at h ⊢
  generalize hR : (E + ts - 1) % ts = r at h hr
  omega

theorem chunk_dims_pred_mul_lt (E ts : Nat) (hts : 0 < ts) (hE : 0 < E) :
    (chunk_dims E ts - 1) * ts < E := by
  unfold chunk_dims
  have h : (E + ts - 1) / ts * ts + (E + ts - 1) % ts = E + ts - 1 := by
    rw [Nat.mul_comm]; exact Nat.div_add_mod _ _
  have hr : (E + ts - 1) % ts < ts := Nat.mod_lt _ hts
  rw [Nat.sub_mul, Nat.one_mul]
  generalize hA : (E + ts - 1) / ts * ts = A at h ⊢
  generalize hR : (E + ts - 1) % ts = r at h hr
  omega

theorem chunk_dims_zero (ts : Nat) (hts : 0 < ts) : chunk_dims 0 ts = 0 := by
  unfold chunk_dims
  exact Nat.div_eq_of_lt (by omega)

/-- The extent of a trimmed tile along one axis: the nominal tile size,
except the last tile which gets what remains of the axis extent — provided
the overlap does not exceed the extent of the last tile. -/
theorem trimmed_len_eq (m E ts ov i : Nat) (hts : 0 < ts)
    (hov : 2 ≤ chunk_dims E ts → (chunk_dims E ts - 1) * ts + ov ≤ E)
    (hi : i < chunk_dims E ts) :
    trimmed_len m E ts ov i =
      if i = chunk_dims E ts - 1 then E - (chunk_dims E ts - 1) * ts else ts := by
  have hdpos : 0 < chunk_dims E ts := Nat.lt_of_le_of_lt (Nat.zero_le i) hi
  have hE : 0 < E := by
    by_contra hE0
    have hz : E = 0 := by omega
    rw [hz, chunk_dims_zero ts hts] at hi
    omega
  have hEle : E ≤ chunk_dims E ts * ts := chunk_dims_le_mul E ts hts
  have hlt : (chunk_dims E ts - 1) * ts < E := chunk_dims_pred_mul_lt E ts hts hE
  set d := chunk_dims E ts with hd
  have hts_le : ts ≤ d * ts := Nat.le_mul_of_pos_left ts hdpos
  have hBC : (d - 1) * ts + ts = d * ts := by
    rw [Nat.sub_mul, Nat.one_mul]
    exact Nat.sub_add_cancel hts_le
  have hiB : i * ts ≤ (d - 1) * ts := Nat.mul_le_mul_right ts (by omega)
  have hsucc : (i + 1) * ts = i * ts + ts := Nat.succ_mul i ts
  by_cases hlast : i = d - 1
  · subst hlast
    rw [if_pos rfl]
    have hhi : trim_hi ov (d - 1) d = none := by
      simp only [trim_hi, if_neg (by omega : ¬ (0 < ov ∧ d - 1 < d - 1))]
    by_cases h0 : 0 < d - 1
    · have hlo : trim_lo ov (d - 1) = ov := by simp [trim_lo, h0]
      have h1 : 1 * ts ≤ (d - 1) * ts := Nat.mul_le_mul_right ts h0
      rw [Nat.one_mul] at h1
      have hovE : (d - 1) * ts + ov ≤ E := hov (by omega)
      simp only [trimmed_len, ← hd, hhi, hlo, slice_len, window_len, tile_window]
      generalize hB : (d - 1) * ts = B at h1 hBC hlt hovE ⊢
      generalize hC : d * ts = C at hBC hEle
      omega
    · have hz : d - 1 = 0 := by omega
      have hhi0 : trim_hi ov 0 d = none := by
        simp only [trim_hi, if_neg (by omega : ¬ (0 < ov ∧ 0 < d - 1))]
      have hlo : trim_lo ov 0 = 0 := by simp [trim_lo]
      simp only [trimmed_len, ← hd, hz, Nat.zero_mul, hhi0, hlo, slice_len,
        window_len, tile_window]
      rw [hz, Nat.zero_mul] at hBC
      generalize hC : d * ts = C at hBC hEle hts_le
      omega
  · have hilt : i < d - 1 := by omega
    have hovE : (d - 1) * ts + ov ≤ E := hov (by omega)
    have hup : (i + 1) * ts ≤ (d - 1) * ts := Nat.mul_le_mul_right ts (by omega)
    rw [if_neg hlast]
    by_cases hovpos : 0 < ov
    · have hhi : trim_hi ov i d = some ov := by simp [trim_hi, hovpos, hilt]
      by_cases h0 : 0 < i
      · have hlo : trim_lo ov i = ov := by simp [trim_lo, h0]
        have h1 : 1 * ts ≤ i * ts := Nat.mul_le_mul_right ts h0
        rw [Nat.one_mul] at h1
        simp only [trimmed_len, ← hd, hhi, hlo, slice_len, window_len, tile_window]
        generalize hA : i * ts = A at hiB hsucc h1 ⊢
        generalize hA1 : (i + 1) * ts = A1 at hsucc hup
        generalize hB : (d - 1) * ts = B at hiB hBC hlt hovE hup
        generalize hC : d * ts = C at hBC hEle
        omega
      · have hlo : trim_lo ov i = 0 := by simp [trim_lo, h0]
        have hz : i = 0 := by omega
        subst hz
        rw [Nat.zero_mul] at hsucc
        simp only [trimmed_len, ← hd, hhi, hlo, slice_len, window_len, tile_window,
          Nat.zero_mul]
        generalize hA1 : (0 + 1) * ts = A1 at hsucc hup
        generalize hB : (d - 1) * ts = B at hBC hlt hovE hup
        generalize hC : d * ts = C at hBC hEle
        omega
    · have hz : ov = 0 := by omega
      subst hz
      have hhi : trim_hi 0 i d = none := by simp [trim_hi]
      have hlo : trim_lo 0 i = 0 := by simp [trim_lo]
      simp only [trimmed_len, ← hd, hhi, hlo, slice_len, window_len, tile_window]
      generalize hA : i * ts = A at hiB hsucc ⊢
      generalize hA1 : (i + 1) * ts = A1 at hsucc hup
      generalize hB : (d - 1) * ts = B at hiB hBC hlt hovE hup
      generalize hC : d * ts = C at hBC hEle
      omega

/-- C1 counterexample: with extent 10, tile size 4 and overlap 3 along an
axis (grid of 3 tiles), the interior tile 1 trims to extent 3, not the
nominal tile size 4, and coordinate 7 of the output space is covered by no
written region — the written regions do not tile the array. -/
theorem trim_reassembly_counterexample :
    chunk_dims 10 4 = 3
    ∧ trimmed_len 0 10 4 3 1 ≠ 4
    ∧ ∀ i, i < chunk_dims 10 4 →
        ¬ ((save_region 0 10 4 3 i).1 ≤ 7 ∧ 7 < (save_region 0 10 4 3 i).2) := by
  decide

/-- C1 (amended): for every array extent, tile size and overlap such that,
whenever an axis has at least two tiles, `overlap + (dims-1)*tile ≤ extent`
(the overlap does not exceed the last tile's extent), trimming each tile
yields a block whose extent along the axis is the nominal tile size except
the last tile, which gets the remainder `extent - (dims-1)*tile`; and the
regions written at the nominal offsets `tile_index*tile_size` cover the
output coordinate space `[0, extent)` exactly, with no gap and no
overlap. -/
theorem trim_save_roundtrip (m E ts ov : Nat) (hts : 0 < ts)
    (hov : 2 ≤ chunk_dims E ts → (chunk_dims E ts - 1) * ts + ov ≤ E) :
    (∀ i, i < chunk_dims E ts →
        trimmed_len m E ts ov i =
          if i = chunk_dims E ts - 1 then E - (chunk_dims E ts - 1) * ts else ts)
    ∧ (∀ p, p < E ↔ ∃ i, i < chunk_dims E ts ∧
        (save_region m E ts ov i).1 ≤ p ∧ p < (save_region m E ts ov i).2)
    ∧ (∀ i j p, i < chunk_dims E ts → j < chunk_dims E ts → i ≠ j →
        (save_region m E ts ov i).1 ≤ p → p < (save_region m E ts ov i).2 →
        ¬ ((save_region m E ts ov j).1 ≤ p ∧ p < (save_region m E ts ov j).2)) := by
  have hext : ∀ i, i < chunk_dims E ts →
      trimmed_len m E ts ov i =
        if i = chunk_dims E ts - 1 then E - (chunk_dims E ts - 1) * ts else ts :=
    fun i hi => trimmed_len_eq m E ts ov i hts hov hi
  have hEpos : 0 < chunk_dims E ts → 0 < E := by
    intro hdp
    by_contra h0
    have hz : E = 0 := by omega
    rw [hz, chunk_dims_zero ts hts] at hdp
    omega
  have hEle : E ≤ chunk_dims E ts * ts := chunk_dims_le_mul E ts hts
  have hub : ∀ i, i < chunk_dims E ts →
      i * ts + trimmed_len m E ts ov i ≤ E ∧
      (i < chunk_dims E ts - 1 →
        i * ts + trimmed_len m E ts ov i = (i + 1) * ts) := by
    intro i hi
    have h := hext i hi
    have hdp : 0 < chunk_dims E ts := Nat.lt_of_le_of_lt (Nat.zero_le i) hi
    have hE := hEpos hdp
    have hlt : (chunk_dims E ts - 1) * ts < E := chunk_dims_pred_mul_lt E ts hts hE
    have hiB : i * ts ≤ (chunk_dims E ts - 1) * ts :=
      Nat.mul_le_mul_right ts (by omega)
    have hsucc : (i + 1) * ts = i * ts + ts := Nat.succ_mul i ts
    by_cases hil : i = chunk_dims E ts - 1
    · rw [if_pos hil] at h
      rw [h, hil]
      exact ⟨by omega, by omega⟩
    · rw [if_neg hil] at h
      rw [h]
      have h3 : (i + 1) * ts ≤ (chunk_dims E ts - 1) * ts :=
        Nat.mul_le_mul_right ts (by omega)
      exact ⟨by omega, by omega⟩
  refine ⟨hext, ?_, ?_⟩
  · intro p
    constructor
    · intro hp
      have hE : 0 < E := Nat.lt_of_le_of_lt (Nat.zero_le p) hp
      have hqd : p / ts < chunk_dims E ts :=
        (Nat.div_lt_iff_lt_mul hts).mpr (Nat.lt_of_lt_of_le hp hEle)
      refine ⟨p / ts, hqd, ?_, ?_⟩
      · simp only [save_region]
        exact Nat.div_mul_le_self p ts
      · simp only [save_region]
        have h := hext (p / ts) hqd
        have hdm : ts * (p / ts) + p % ts = p := Nat.div_add_mod p ts
        have hcomm : p / ts * ts = ts * (p / ts) := Nat.mul_comm _ _
        have hmod : p % ts < ts := Nat.mod_lt p hts
        by_cases hq1 : p / ts = chunk_dims E ts - 1
        · rw [if_pos hq1] at h
          rw [h, hq1]
          rw [hq1] at hdm hcomm
          omega
        · rw [if_neg hq1] at h
          rw [h]
          omega
    · rintro ⟨i, hi, h1, h2⟩
      simp only [save_region] at h1 h2
      have := (hub i hi).1
      omega
  · intro i j p hi hj hne h1 h2 hcon
    obtain ⟨h3, h4⟩ := hcon
    simp only [save_region] at h1 h2 h3 h4
    have key : ∀ a b, a < b → b < chunk_dims E ts → a * ts ≤ p →
        p < a * ts + trimmed_len m E ts ov a → b * ts ≤ p → False := by
      intro a b hab hbd ha1 ha2 hb1
      have haeq := (hub a (Nat.lt_trans hab hbd)).2 (by omega)
      have hmono : (a + 1) * ts ≤ b * ts := Nat.mul_le_mul_right ts (by omega)
      omega
    rcases Nat.lt_or_ge i j with hlt | hge
    · exact key i j hlt hj h1 h2 h3
    · exact key j i (by omega) hi h3 h4 h1

/-- Witness for the amended C1 at extent 10, tile size 4, overlap 2:
tile 1 (an interior tile of the 3-tile grid) trims to the nominal tile
size 4. -/
theorem trim_save_roundtrip_witness : trimmed_len 0 10 4 2 1 = 4 := by
  have h := (trim_save_roundtrip 0 10 4 2 (by decide) (by decide)).1 1 (by decide)
  rw [if_neg (by decide)] at h
  exact h

/-- C2 counterexample: in the end-to-end scenario
(extent T=4, C=2, Z=1, Y=8, X=8; tile T=2, Z=1, Y=4, X=4; overlap
T=1, Z=0, Y=1, X=1) the plan builder does not produce 4 tiles — the T axis
alone splits into ceil(4/2) = 2 tiles, so there are 2×1×2×2 = 8. -/
theorem end_to_end_tile_count_counterexample :
    (load_chunks_from_czi 4 1 0 8 0 8 ⟨2, 1, 4, 4⟩ ⟨1, 0, 1, 1⟩ ∅ ⟨1, 1, 1, 1⟩).length ≠ 4 := by
  decide

/-- C2 (amended): the scenario yields 2×1×2×2 = 8 tiles; tile (0,0,0,0)
gets read windows T=[0,3), Z=[0,1), Y=[0,5), X=[0,5); and after a
shape-preserving transform and trimming, its output block covers exactly
[0,4) on the Y axis and on the X axis. -/
theorem end_to_end_scenario :
    (load_chunks_from_czi 4 1 0 8 0 8 ⟨2, 1, 4, 4⟩ ⟨1, 0, 1, 1⟩ ∅ ⟨1, 1, 1, 1⟩).length = 8
    ∧ get_chunk_dims ⟨4, 2, 1, 8, 8⟩ ⟨2, 1, 4, 4⟩ = ⟨2, 1, 2, 2⟩
    ∧ (⟨⟨0, 0, 0, 0⟩, ((0, 3), (0, 1), (0, 5), (0, 5))⟩ :
        TZYX Nat × ((Nat × Nat) × (Nat × Nat) × (Nat × Nat) × (Nat × Nat))) ∈
        load_chunks_from_czi 4 1 0 8 0 8 ⟨2, 1, 4, 4⟩ ⟨1, 0, 1, 1⟩ ∅ ⟨1, 1, 1, 1⟩
    ∧ save_region 0 8 4 1 0 = (0, 4) := by
  decide

/-- C7: the slices built by `trim` follow exactly the stated rules — low
side `overlaps[i]` iff the tile index is positive, high side `-overlaps[i]`
iff the overlap is positive and the tile is not last on that axis — and
consequently a tile at grid position 0 along an axis has no low-side trim,
a tile at the last grid position along an axis has no high-side trim even
when the overlap is positive, and the channel axis (position 1) is passed
through untrimmed. -/
theorem trim_slice_rules (ch_index chunk_array overlaps : TZYX Nat) :
    trim_slices ch_index chunk_array overlaps =
      [(if 0 < ch_index.T then overlaps.T else 0,
        if 0 < overlaps.T ∧ ch_index.T < chunk_array.T - 1 then some overlaps.T else none),
       (0, none),
       (if 0 < ch_index.Z then overlaps.Z else 0,
        if 0 < overlaps.Z ∧ ch_index.Z < chunk_array.Z - 1 then some overlaps.Z else none),
       (if 0 < ch_index.Y then overlaps.Y else 0,
        if 0 < overlaps.Y ∧ ch_index.Y < chunk_array.Y - 1 then some overlaps.Y else none),
       (if 0 < ch_index.X then overlaps.X else 0,
        if 0 < overlaps.X ∧ ch_index.X < chunk_array.X - 1 then some overlaps.X else none)]
    ∧ (∀ ov : Nat, trim_lo ov 0 = 0)
    ∧ (∀ ov d : Nat, trim_hi ov (d - 1) d = none)
    ∧ (trim_slices ch_index chunk_array overlaps)[1]? = some (0, none) := by
  refine ⟨rfl, fun ov => rfl, fun ov d => ?_, rfl⟩
  simp [trim_hi]

/-- C3 counterexample: `load_chunk` performs no containment check on the T
(or Z) axis: a T window far outside the file's T extent 4 — not contained
in `range(0, 4)` — is accepted without error as long as the Y and X windows
are in bounds, and the roi is passed through unchanged. -/
theorem load_chunk_tz_unchecked :
    range_contains ⟨100, 200, 1⟩ ⟨0, 4, 1⟩ = false
    ∧ load_chunk ⟨100, 200, 1⟩ ⟨0, 1, 1⟩ ⟨0, 8, 1⟩ ⟨0, 8, 1⟩ 0 0 8 8 =
        Except.ok (0, 0, 8, 8) :=
  ⟨by decide, rfl⟩

/-- C3 (amended): before any read, `load_chunk` checks containment of the
Y and X read windows in the scene's valid ranges; if either fails it raises
a range-out-of-bounds error, and otherwise it passes the requested window
through verbatim as the roi — never clipped or wrapped. The T and Z windows
are not checked. -/
theorem load_chunk_checks_only_yx (t_range z_range y_range x_range : PyRange)
    (x0 y0 : Int) (w h : Nat) :
    (¬ (range_contains y_range ⟨y0, y0 + h, 1⟩ = true ∧
        range_contains x_range ⟨x0, x0 + w, 1⟩ = true) →
      load_chunk t_range z_range y_range x_range x0 y0 w h =
        Except.error "input range lies outside image")
    ∧ (range_contains y_range ⟨y0, y0 + h, 1⟩ = true →
        range_contains x_range ⟨x0, x0 + w, 1⟩ = true →
        load_chunk t_range z_range y_range x_range x0 y0 w h =
          Except.ok (x_range.start, y_range.start, x_range.len, y_range.len)) := by
  cases hy : range_contains y_range ⟨y0, y0 + h, 1⟩ <;>
    cases hx : range_contains x_range ⟨x0, x0 + w, 1⟩ <;>
      simp [load_chunk, hy, hx]

/-- Witness for the amended C3: in-bounds Y and X windows [0,5) against the
bounding rectangle (0, 0, 8, 8) load successfully with the roi passed
through verbatim. -/
theorem load_chunk_checks_only_yx_witness :
    load_chunk ⟨0, 3, 1⟩ ⟨0, 1, 1⟩ ⟨0, 5, 1⟩ ⟨0, 5, 1⟩ 0 0 8 8 =
      Except.ok (0, 0, 5, 5) :=
  (load_chunk_checks_only_yx ⟨0, 3, 1⟩ ⟨0, 1, 1⟩ ⟨0, 5, 1⟩ ⟨0, 5, 1⟩ 0 0 8 8).2
    (by decide) (by decide)

theorem mem_pyRangeNat {x a b : Nat} : x ∈ pyRangeNat a b ↔ a ≤ x ∧ x < b := by
  unfold pyRangeNat
  rw [List.mem_range'_1]
  omega

theorem check_existing_chunks_iff (da ratios : TZYX Nat) (existing : Finset (TZYX Nat)) :
    check_existing_chunks da ratios existing = true ↔
      ∀ c : TZYX Nat,
        da.T * ratios.T ≤ c.T → c.T < (da.T + 1) * ratios.T →
        da.Z * ratios.Z ≤ c.Z → c.Z < (da.Z + 1) * ratios.Z →
        da.Y * ratios.Y ≤ c.Y → c.Y < (da.Y + 1) * ratios.Y →
        da.X * ratios.X ≤ c.X → c.X < (da.X + 1) * ratios.X →
        c ∈ existing := by
  simp only [check_existing_chunks, List.all_eq_true, mem_pyRangeNat,
    decide_eq_true_eq, and_imp]
  constructor
  · intro h c h1 h2 h3 h4 h5 h6 h7 h8
    exact h c.T h1 h2 c.Z h3 h4 c.Y h5 h6 c.X h7 h8
  · intro h t h1 h2 z h3 h4 y h5 h6 x h7 h8
    exact h ⟨t, z, y, x⟩ h1 h2 h3 h4 h5 h6 h7 h8

/-- C6: the resumability filter returns true iff every storage coordinate
in the Cartesian product of the per-axis ranges
`[tile_index*ratio, (tile_index+1)*ratio)` is a member of the
existing-chunks set; and removing any single coordinate of that product
from the set makes it return false. -/
theorem check_existing_chunks_correct (da ratios : TZYX Nat)
    (existing : Finset (TZYX Nat)) :
    (check_existing_chunks da ratios existing = true ↔
      ∀ c : TZYX Nat,
        da.T * ratios.T ≤ c.T → c.T < (da.T + 1) * ratios.T →
        da.Z * ratios.Z ≤ c.Z → c.Z < (da.Z + 1) * ratios.Z →
        da.Y * ratios.Y ≤ c.Y → c.Y < (da.Y + 1) * ratios.Y →
        da.X * ratios.X ≤ c.X → c.X < (da.X + 1) * ratios.X →
        c ∈ existing)
    ∧ (∀ c : TZYX Nat,
        da.T * ratios.T ≤ c.T → c.T < (da.T + 1) * ratios.T →
        da.Z * ratios.Z ≤ c.Z → c.Z < (da.Z + 1) * ratios.Z →
        da.Y * ratios.Y ≤ c.Y → c.Y < (da.Y + 1) * ratios.Y →
        da.X * ratios.X ≤ c.X → c.X < (da.X + 1) * ratios.X →
        check_existing_chunks da ratios (existing.erase c) = false) := by
  refine ⟨check_existing_chunks_iff da ratios existing, ?_⟩
  intro c h1 h2 h3 h4 h5 h6 h7 h8
  by_contra hne
  have hT : check_existing_chunks da ratios (existing.erase c) = true := by
    cases hb : check_existing_chunks da ratios (existing.erase c)
    · exact absurd hb hne
    · rfl
  have hc := (check_existing_chunks_iff da ratios (existing.erase c)).mp hT
    c h1 h2 h3 h4 h5 h6 h7 h8
  exact Finset.not_mem_erase c existing hc

/-- Witness for C6: with ratio (1,1,2,2) and tile (0,0,0,0), removing
storage coordinate (0,0,1,1) from a store holding all four storage chunks
makes the filter return false. -/
theorem check_existing_chunks_correct_witness :
    check_existing_chunks ⟨0, 0, 0, 0⟩ ⟨1, 1, 2, 2⟩
      (({⟨0, 0, 0, 0⟩, ⟨0, 0, 0, 1⟩, ⟨0, 0, 1, 0⟩, ⟨0, 0, 1, 1⟩} :
        Finset (TZYX Nat)).erase ⟨0, 0, 1, 1⟩) = false :=
  (check_existing_chunks_correct ⟨0, 0, 0, 0⟩ ⟨1, 1, 2, 2⟩ _).2 ⟨0, 0, 1, 1⟩
    (by decide) (by decide) (by decide) (by decide)
    (by decide) (by decide) (by decide) (by decide)

/-- C9: when any axis's chunk-ratio entry is 0, the per-axis storage range
is empty, the Cartesian product is empty, and `check_existing_chunks`
returns true (skip) for every tile index and every existing-chunks set;
the filter itself (a total function) enforces no positivity
precondition. -/
theorem check_existing_chunks_zero_ratio (da ratios : TZYX Nat)
    (existing : Finset (TZYX Nat))
    (h : ratios.T = 0 ∨ ratios.Z = 0 ∨ ratios.Y = 0 ∨ ratios.X = 0) :
    check_existing_chunks da ratios existing = true := by
  rw [check_existing_chunks_iff]
  intro c h1 h2 h3 h4 h5 h6 h7 h8
  exfalso
  rcases h with h | h | h | h
  · rw [h, Nat.mul_zero] at h2; omega
  · rw [h, Nat.mul_zero] at h4; omega
  · rw [h, Nat.mul_zero] at h6; omega
  · rw [h, Nat.mul_zero] at h8; omega

/-- Witness for C9: a zero T ratio makes the filter skip a tile even
against an empty store. -/
theorem check_existing_chunks_zero_ratio_witness :
    check_existing_chunks ⟨5, 6, 7, 8⟩ ⟨0, 1, 1, 1⟩ (∅ : Finset (TZYX Nat)) = true :=
  check_existing_chunks_zero_ratio ⟨5, 6, 7, 8⟩ ⟨0, 1, 1, 1⟩ ∅ (Or.inl rfl)

theorem mem_load_chunks (T Z Y_min height X_min width : Nat)
    (cs ov : TZYX Nat) (existing : Finset (TZYX Nat)) (ratios : TZYX Nat)
    (idx : TZYX Nat) (w : (Nat × Nat) × (Nat × Nat) × (Nat × Nat) × (Nat × Nat))
    (hmem : (idx, w) ∈
      load_chunks_from_czi T Z Y_min height X_min width cs ov existing ratios) :
    idx.T < chunk_dims T cs.T ∧ idx.Z < chunk_dims Z cs.Z ∧
    idx.Y < chunk_dims height cs.Y ∧ idx.X < chunk_dims width cs.X ∧
    w = (tile_window 0 T cs.T ov.T idx.T,
         tile_window 0 Z cs.Z ov.Z idx.Z,
         tile_window Y_min height cs.Y ov.Y idx.Y,
         tile_window X_min width cs.X ov.X idx.X) := by
  simp only [load_chunks_from_czi, List.mem_flatMap, List.mem_filterMap,
    List.mem_range] at hmem
  obtain ⟨t, ht, z, hz, y, hy, x, hx, hif⟩ := hmem
  split at hif
  · exact absurd hif (by simp)
  · simp only [Option.some_inj, Prod.mk.injEq] at hif
    obtain ⟨h1, h2⟩ := hif
    subst h1
    subst h2
    exact ⟨ht, hz, hy, hx, rfl⟩

/-- C5: every tile produced by the plan builder carries, per axis, exactly
the read window `[max(axis_start - overlap, axis_min),
min(axis_min + axis_extent, axis_start + tile_size + overlap))` (this is
`tile_window`), and that window is a subset of the valid coordinate range
`[0, extent)` for the T and Z axes and `[origin, origin + extent)` for the
offset Y and X axes, even at grid boundaries — clamped, never padded or
wrapped. -/
theorem tile_windows_within_bounds (T Z Y_min height X_min width : Nat)
    (cs ov : TZYX Nat) (existing : Finset (TZYX Nat)) (ratios : TZYX Nat)
    (idx : TZYX Nat) (w : (Nat × Nat) × (Nat × Nat) × (Nat × Nat) × (Nat × Nat))
    (hmem : (idx, w) ∈
      load_chunks_from_czi T Z Y_min height X_min width cs ov existing ratios) :
    w = (tile_window 0 T cs.T ov.T idx.T,
         tile_window 0 Z cs.Z ov.Z idx.Z,
         tile_window Y_min height cs.Y ov.Y idx.Y,
         tile_window X_min width cs.X ov.X idx.X)
    ∧ w.1.2 ≤ T
    ∧ w.2.1.2 ≤ Z
    ∧ Y_min ≤ w.2.2.1.1 ∧ w.2.2.1.2 ≤ Y_min + height
    ∧ X_min ≤ w.2.2.2.1 ∧ w.2.2.2.2 ≤ X_min + width := by
  obtain ⟨h1, h2, h3, h4, hw⟩ :=
    mem_load_chunks T Z Y_min height X_min width cs ov existing ratios idx w hmem
  subst hw
  refine ⟨rfl, ?_, ?_, ?_, ?_, ?_, ?_⟩ <;> simp only [tile_window] <;> omega

/-- Witness for C5: the windows of tile (0,0,0,0) in the end-to-end
scenario. -/
theorem tile_windows_within_bounds_witness :
    (((0, 3), (0, 1), (0, 5), (0, 5)) :
      (Nat × Nat) × (Nat × Nat) × (Nat × Nat) × (Nat × Nat)) =
      (tile_window 0 4 2 1 0, tile_window 0 1 1 0 0,
       tile_window 0 8 4 1 0, tile_window 0 8 4 1 0) :=
  (tile_windows_within_bounds 4 1 0 8 0 8 ⟨2, 1, 4, 4⟩ ⟨1, 0, 1, 1⟩ ∅ ⟨1, 1, 1, 1⟩
    ⟨0, 0, 0, 0⟩ ((0, 3), (0, 1), (0, 5), (0, 5)) (by decide)).1

theorem axis_chunk_check_ok_iff (f d : Nat) (hf : 0 < f) :
    axis_chunk_check f d = Except.ok () ↔ f ≤ d ∧ f ∣ d := by
  unfold axis_chunk_check
  by_cases h1 : f > d
  · rw [if_pos h1]
    constructor
    · intro h; exact absurd h (by simp)
    · intro h; omega
  · rw [if_neg h1]
    by_cases h2 : d % f ≠ 0
    · rw [if_pos h2]
      constructor
      · intro h; exact absurd h (by simp)
      · intro h
        exact absurd (Nat.dvd_iff_mod_eq_zero.mp h.2) h2
    · rw [if_neg h2]
      simp only [not_not] at h2
      constructor
      · intro _
        exact ⟨by omega, Nat.dvd_iff_mod_eq_zero.mpr h2⟩
      · intro _; rfl

theorem seq_ok_iff (a : Except String Unit) (k : Unit → Except String Unit) :
    (a >>= k) = Except.ok () ↔ a = Except.ok () ∧ k () = Except.ok () := by
  cases a with
  | error e =>
      rw [show (Except.error e >>= k) = (Except.error e : Except String Unit) from rfl]
      simp
  | ok u =>
      cases u
      rw [show (Except.ok () >>= k) = k () from rfl]
      simp

theorem check_output_chunks_ok_iff (oc cs : TZYX Nat) :
    check_output_chunks oc cs = Except.ok () ↔
      axis_chunk_check oc.T cs.T = Except.ok () ∧
      axis_chunk_check oc.Z cs.Z = Except.ok () ∧
      axis_chunk_check oc.Y cs.Y = Except.ok () ∧
      axis_chunk_check oc.X cs.X = Except.ok () := by
  unfold check_output_chunks
  simp only [seq_ok_iff]

/-- C8: the per-axis startup check accepts exactly when the output store's
chunk size is at most the tile size and divides it evenly; the whole check
passes exactly when every axis does; when it fails the driver aborts with
an error before building any tile plan; tile size 100 with output chunk 64
is rejected as not an integer divisor (shown both for the axis check and
for a whole driver run, which schedules nothing), while tile size 128 with
output chunk 64 is accepted with ratio 2. -/
theorem startup_chunk_check :
    (∀ f d : Nat, 0 < f → (axis_chunk_check f d = Except.ok () ↔ f ≤ d ∧ f ∣ d))
    ∧ (∀ oc cs : TZYX Nat, 0 < oc.T → 0 < oc.Z → 0 < oc.Y → 0 < oc.X →
        (check_output_chunks oc cs = Except.ok () ↔
          (oc.T ≤ cs.T ∧ oc.T ∣ cs.T) ∧ (oc.Z ≤ cs.Z ∧ oc.Z ∣ cs.Z) ∧
          (oc.Y ≤ cs.Y ∧ oc.Y ∣ cs.Y) ∧ (oc.X ≤ cs.X ∧ oc.X ∣ cs.X)))
    ∧ (∀ (file_array : TCZYX Nat) (Y_min X_min : Nat) (cs ovs : TZYX Nat)
        (oc : TCZYX Nat) (keys : List String),
        check_output_chunks oc.TZYX cs ≠ Except.ok () →
        ∃ e, driver_plan file_array Y_min X_min cs ovs oc keys = Except.error e)
    ∧ driver_plan ⟨4, 2, 1, 8, 8⟩ 0 0 ⟨100, 100, 100, 100⟩ ⟨0, 0, 0, 0⟩
        ⟨1, 64, 64, 64, 64⟩ [] =
        Except.error "Dask chunks not multiples of output chunks"
    ∧ axis_chunk_check 64 100 = Except.error "Dask chunks not multiples of output chunks"
    ∧ axis_chunk_check 64 128 = Except.ok ()
    ∧ chunk_ratios ⟨128, 128, 128, 128⟩ ⟨64, 64, 64, 64⟩ = ⟨2, 2, 2, 2⟩ := by
  refine ⟨axis_chunk_check_ok_iff, ?_, ?_, rfl, rfl, rfl, rfl⟩
  · intro oc cs h1 h2 h3 h4
    rw [check_output_chunks_ok_iff, axis_chunk_check_ok_iff oc.T cs.T h1,
      axis_chunk_check_ok_iff oc.Z cs.Z h2, axis_chunk_check_ok_iff oc.Y cs.Y h3,
      axis_chunk_check_ok_iff oc.X cs.X h4]
  · intro fa Ym Xm cs ovs oc keys hne
    cases h : check_output_chunks oc.TZYX cs with
    | ok u => cases u; exact absurd h hne
    | error e =>
        refine ⟨e, ?_⟩
        unfold driver_plan
        rw [h]
        rfl

/-- Witness for C8: output chunk 64 with tile size 128 passes the axis
check. -/
theorem startup_chunk_check_witness : axis_chunk_check 64 128 = Except.ok () :=
  (startup_chunk_check.1 64 128 (by decide)).mpr ⟨by decide, 2, rfl⟩

theorem mem_existing_chunks_of_keys (keys : List String) (v : TZYX Nat) :
    v ∈ existing_chunks_of_keys keys ↔
      ∃ k, k ∈ keys ∧ k ≠ ".zarray" ∧
        ∃ c : TCZYX Nat, parse_chunk_key k = some c ∧ c.TZYX = v := by
  simp only [existing_chunks_of_keys, List.mem_toFinset, List.mem_map,
    List.mem_filterMap, List.mem_filter, bne_iff_ne, ne_eq]
  constructor
  · rintro ⟨c, ⟨k, ⟨hk, hkz⟩, hp⟩, hv⟩
    exact ⟨k, hk, hkz, c, hp, hv⟩
  · rintro ⟨k, hk, hkz, c, hp, hv⟩
    exact ⟨c, ⟨k, ⟨hk, hkz⟩, hp⟩, hv⟩

/-- C10: the existing-chunks snapshot is exactly the TZYX projections of
the parsed store keys other than `".zarray"`; one key for a single channel
index already records its TZYX coordinate as existing; and the resumability
decision is unchanged when a key is replaced by a key for another channel
index at the same TZYX coordinate. -/
theorem existing_chunks_channel_insensitive :
    (∀ (keys : List String) (v : TZYX Nat),
      v ∈ existing_chunks_of_keys keys ↔
        ∃ k, k ∈ keys ∧ k ≠ ".zarray" ∧
          ∃ c : TCZYX Nat, parse_chunk_key k = some c ∧ c.TZYX = v)
    ∧ (∀ (keys : List String) (k : String) (c : TCZYX Nat),
        k ≠ ".zarray" → parse_chunk_key k = some c →
        c.TZYX ∈ existing_chunks_of_keys (k :: keys))
    ∧ (∀ (keys : List String) (k k' : String) (c c' : TCZYX Nat),
        k ≠ ".zarray" → k' ≠ ".zarray" →
        parse_chunk_key k = some c → parse_chunk_key k' = some c' →
        c.TZYX = c'.TZYX →
        ∀ (da ratios : TZYX Nat),
          check_existing_chunks da ratios (existing_chunks_of_keys (k :: keys)) =
            check_existing_chunks da ratios (existing_chunks_of_keys (k' :: keys))) := by
  refine ⟨mem_existing_chunks_of_keys, ?_, ?_⟩
  · intro keys k c hkz hp
    exact (mem_existing_chunks_of_keys (k :: keys) c.TZYX).mpr
      ⟨k, List.mem_cons_self k keys, hkz, c, hp, rfl⟩
  · intro keys k k' c c' hkz hk'z hp hp' hcc' da ratios
    have hsub : ∀ (a b : String) (ca cb : TCZYX Nat), a ≠ ".zarray" → b ≠ ".zarray" →
        parse_chunk_key a = some ca → parse_chunk_key b = some cb →
        ca.TZYX = cb.TZYX → ∀ v, v ∈ existing_chunks_of_keys (a :: keys) →
        v ∈ existing_chunks_of_keys (b :: keys) := by
      intro a b ca cb haz hbz hpa hpb hab v hv
      obtain ⟨k0, hk0, hk0z, c0, hp0, hv0⟩ :=
        (mem_existing_chunks_of_keys (a :: keys) v).mp hv
      rcases List.mem_cons.mp hk0 with rfl | hk0'
      · have hc0 : c0 = ca := by
          rw [hpa] at hp0
          exact (Option.some_inj.mp hp0).symm

        exact (mem_existing_chunks_of_keys (b :: keys) v).mpr
          ⟨b, List.mem_cons_self b keys, hbz, cb, hpb, by rw [← hv0, hc0, hab]⟩
      · exact (mem_existing_chunks_of_keys (b :: keys) v).mpr
          ⟨k0, List.mem_cons_of_mem b hk0', hk0z, c0, hp0, hv0⟩
    have hset : existing_chunks_of_keys (k :: keys) =
        existing_chunks_of_keys (k' :: keys) := by
      apply Finset.ext
      intro v
      exact ⟨hsub k k' c c' hkz hk'z hp hp' hcc' v,
        hsub k' k c' c hk'z hkz hp' hp hcc'.symm v⟩
    rw [hset]

/-- Witness for C10: the keys "1.0.2.3.4" and "1.7.2.3.4" (channel indices
0 and 7 at the same TZYX coordinate) give the same resumability
decision. -/
theorem existing_chunks_channel_insensitive_witness :
    check_existing_chunks ⟨0, 0, 0, 0⟩ ⟨1, 1, 1, 1⟩
      (existing_chunks_of_keys ["1.0.2.3.4"]) =
    check_existing_chunks ⟨0, 0, 0, 0⟩ ⟨1, 1, 1, 1⟩
      (existing_chunks_of_keys ["1.7.2.3.4"]) :=
  existing_chunks_channel_insensitive.2.2 [] "1.0.2.3.4" "1.7.2.3.4"
    ⟨1, 0, 2, 3, 4⟩ ⟨1, 7, 2, 3, 4⟩ (by decide) (by decide) (by decide) (by decide)
    (by decide) ⟨0, 0, 0, 0⟩ ⟨1, 1, 1, 1⟩

end DaskOverlap
